import Mathlib

/-!
Verification of `NumPyRingBuffer` (src/NumPyRingBuffer.py).

The Python class keeps a one-dimensional numpy array `_npa` of length
`2 * max_size` and a monotonically increasing counter `_index`.  `append`
writes the new element at physical slot `_index % max_size` and again at that
slot plus `max_size`, then increments `_index`.  `getElements` returns the
slice `_npa[_index % max_size : _index % max_size + max_size]`.  Reductions
(`min`, `mean`, ...) are forwarded by `__getattr__` to `_npa[:_index]` when
`_index < max_size` and to the `getElements` window otherwise.  `__setitem__`
and `__getitem__` implement the write/read indexing surface.

The embedding below models the backing numpy array as a `List α`, machine
indices as `ℕ`/`ℤ` with explicit `%` where Python wraps, uninitialized memory
(`numpy.empty`) as an arbitrary `junk : ℕ → α` function, and fallible
operations as `Except String`.
-/

/-- State of a `NumPyRingBuffer`: the fixed capacity `max_size`, the backing
array `_npa` (a list of length `2 * max_size` for well-formed states), and the
monotonically increasing write counter `_index`. -/
structure NumPyRingBuffer (α : Type) where
  max_size : ℕ
  npa : List α
  index : ℕ
  deriving DecidableEq

/-- `numpy.empty(n, dtype)`: allocates `n` cells of uninitialized memory whose
contents are arbitrary (modelled by `junk`); a negative size raises
`ValueError`. -/
def npempty {α : Type} (n : ℤ) (junk : ℕ → α) : Except String (List α) :=
  if n < 0 then .error "ValueError: negative dimensions are not allowed"
  else .ok (List.ofFn fun i : Fin n.toNat => junk i.val)

/-- `__init__(max_size, dtype)` for an arbitrary integer `max_size`, exactly as
the Python code runs it: `numpy.empty(max_size * 2)` is the only thing that can
fail; there is no validation of `max_size` in the constructor. -/
def constructZ {α : Type} (max_size : ℤ) (junk : ℕ → α) :
    Except String (NumPyRingBuffer α) :=
  (npempty (max_size * 2) junk).map fun a =>
    { max_size := max_size.toNat, npa := a, index := 0 }

/-- `__init__(max_size, dtype)` for a natural capacity (the always-succeeding
case of `constructZ`): backing store of length `max_size * 2` filled with the
uninitialized contents `junk`, cursor `_index = 0`. -/
def construct {α : Type} (max_size : ℕ) (junk : ℕ → α) : NumPyRingBuffer α :=
  { max_size := max_size
    npa := List.ofFn fun i : Fin (max_size * 2) => junk i.val
    index := 0 }

namespace NumPyRingBuffer

/-- `append(element)`: writes `element` at slot `_index % max_size` and at that
slot plus `max_size`, then increments `_index`. -/
def append {α : Type} (b : NumPyRingBuffer α) (element : α) : NumPyRingBuffer α :=
  let i := b.index
  { b with
    npa := (b.npa.set (i % b.max_size) element).set
      (i % b.max_size + b.max_size) element
    index := b.index + 1 }

/-- Fold `append` over a list of values (a sequence of `append` calls). -/
def appendAll {α : Type} (b : NumPyRingBuffer α) (xs : List α) : NumPyRingBuffer α :=
  xs.foldl append b

/-- `getElements()`: the slice
`_npa[_index % max_size : _index % max_size + max_size]`. -/
def getElements {α : Type} (b : NumPyRingBuffer α) : List α :=
  (b.npa.drop (b.index % b.max_size)).take b.max_size

/-- `isFull()`: `_index >= max_size`. -/
def isFull {α : Type} (b : NumPyRingBuffer α) : Bool :=
  decide (b.index ≥ b.max_size)

/-- `clear()`: resets `_index` to `0`; the backing array is untouched. -/
def clear {α : Type} (b : NumPyRingBuffer α) : NumPyRingBuffer α :=
  { b with index := 0 }

/-- `__len__()`: `max_size` when full, else `_index`. -/
def length {α : Type} (b : NumPyRingBuffer α) : ℕ :=
  if b.isFull then b.max_size else b.index

/-- The array `__getattr__` forwards reductions to: `_npa[:_index]` when
`_index < max_size`, otherwise the `getElements` window.  A reduction such as
`min`/`max`/`mean`/`std`/`sum` invoked on the buffer is computed over exactly
this list. -/
def getattrWindow {α : Type} (b : NumPyRingBuffer α) : List α :=
  if b.index < b.max_size then b.npa.take b.index
  else (b.npa.drop (b.index % b.max_size)).take b.max_size

/-- numpy integer indexing into a 1-d array: an index `i` with
`-len ≤ i < len` resolves (negative values count from the end); anything else
raises `IndexError`. -/
def npGetInt {α : Type} (a : List α) (i : ℤ) : Except String α :=
  let j : ℤ := if i < 0 then i + a.length else i
  if h : 0 ≤ j ∧ j.toNat < a.length then .ok (a.get ⟨j.toNat, h.2⟩)
  else .error "IndexError"

/-- `__getitem__` with a single integer selector: numpy indexing into the
`getElements()` window. -/
def getitemInt {α : Type} (b : NumPyRingBuffer α) (i : ℤ) : Except String α :=
  npGetInt (getElements b) i

/-- `__setitem__` with a single integer selector: `i := indexs + _index`, then
the value is written at `_npa[i % max_size]` and `_npa[i % max_size + max_size]`. -/
def setitemInt {α : Type} (b : NumPyRingBuffer α) (idx : ℤ) (v : α) :
    NumPyRingBuffer α :=
  let i : ℤ := idx + (b.index : ℤ)
  let p : ℕ := (i % (b.max_size : ℤ)).toNat
  { b with npa := (b.npa.set p v).set (p + b.max_size) v }

/-- numpy slice assignment `l[lo:hi] = v` with a scalar `v` and positions
tracked from offset `k`: every position `n` with `lo ≤ n < hi` (and `n` in
range) is overwritten with `v`; an empty slice assigns nothing. -/
def npSetRange {α : Type} (v : α) (lo hi : ℕ) : ℕ → List α → List α
  | _, [] => []
  | k, x :: xs =>
      (if lo ≤ k ∧ k < hi then v else x) :: npSetRange v lo hi (k + 1) xs

/-- `__setitem__` with a single slice selector (step `None`, scalar value):
a missing start/stop defaults to `0`; then `start := istart + _index`,
`stop := istop + _index`, and the code assigns
`_npa[start % max_size : stop % max_size] = v` together with the same range
shifted by `max_size`. -/
def setitemSlice {α : Type} (b : NumPyRingBuffer α) (ostart ostop : Option ℤ)
    (v : α) : NumPyRingBuffer α :=
  let istart : ℤ := ostart.getD 0
  let istop : ℤ := ostop.getD 0
  let start : ℤ := istart + (b.index : ℤ)
  let stop : ℤ := istop + (b.index : ℤ)
  let a : ℕ := (start % (b.max_size : ℤ)).toNat
  let c : ℕ := (stop % (b.max_size : ℤ)).toNat
  { b with
    npa := npSetRange v (a + b.max_size) (c + b.max_size) 0
      (npSetRange v a c 0 b.npa) }

end NumPyRingBuffer

/-- A selector appearing in a `__setitem__` list/tuple argument: an integer or
a slice (range). -/
inductive Sel where
  | int (i : ℤ)
  | rng (start stop : Option ℤ)
  deriving DecidableEq

/-- Whether a selector is an integer selector. -/
def Sel.isInt : Sel → Bool
  | .int _ => true
  | .rng _ _ => false

namespace NumPyRingBuffer

/-- `__setitem__` with a list/tuple of selectors.  The loop applies each
integer selector as a double write; on reaching a slice selector the code
evaluates `indexs.start` — an attribute lookup on the *list* itself, which has
no `start` attribute — so an `AttributeError` is raised at that point (modelled
by the `true` flag) with the writes made so far left in place. -/
def setitemList {α : Type} (b : NumPyRingBuffer α) (sels : List Sel) (v : α) :
    NumPyRingBuffer α × Bool :=
  match sels with
  | [] => (b, false)
  | .int i :: rest => setitemList (b.setitemInt i v) rest v
  | .rng _ _ :: _ => (b, true)

end NumPyRingBuffer

/-- Apply one selector of a `__setitem__` selector list: an integer selector
performs the cursor-relative double write; a slice selector is the point where
the loop aborts, leaving the state unchanged. -/
def applyIntSel {α : Type} (v : α) (b : NumPyRingBuffer α) : Sel → NumPyRingBuffer α
  | .int i => b.setitemInt i v
  | .rng _ _ => b

/-- One mutating operation on the buffer: an `append`, an integer-selector
write, or a slice-selector write. -/
inductive Op (α : Type) where
  | append (v : α)
  | writeInt (i : ℤ) (v : α)
  | writeSlice (start stop : Option ℤ) (v : α)
  deriving DecidableEq

/-- Apply one mutating operation. -/
def applyOp {α : Type} (b : NumPyRingBuffer α) : Op α → NumPyRingBuffer α
  | .append v => b.append v
  | .writeInt i v => b.setitemInt i v
  | .writeSlice s t v => b.setitemSlice s t v

/-- Run a sequence of mutating operations. -/
def runOps {α : Type} (b : NumPyRingBuffer α) (ops : List (Op α)) :
    NumPyRingBuffer α :=
  ops.foldl applyOp b

/-- The duplication invariant: each slot `s < max_size` holds the same value
as its mirror slot `s + max_size`. -/
def DupInv {α : Type} (b : NumPyRingBuffer α) : Prop :=
  ∀ s : ℕ, s < b.max_size → b.npa[s]? = b.npa[s + b.max_size]?

namespace NumPyRingBuffer

theorem getElem?_drop_add {α : Type} (l : List α) (i j : ℕ) :
    (l.drop i)[j]? = l[i + j]? := by
  induction i generalizing l with
  | zero => simp
  | succ n ih =>
    cases l with
    | nil => simp
    | cons x xs => simp [Nat.succ_add, ih]

theorem npSetRange_length {α : Type} (v : α) (lo hi k : ℕ) (l : List α) :
    (npSetRange v lo hi k l).length = l.length := by
  induction l generalizing k with
  | nil => rfl
  | cons x xs ih => simp [npSetRange, ih]

theorem npSetRange_getElem? {α : Type} (v : α) (lo hi k n : ℕ) (l : List α) :
    (npSetRange v lo hi k l)[n]? =
      if lo ≤ k + n ∧ k + n < hi then l[n]?.map (fun _ => v) else l[n]? := by
  induction l generalizing k n with
  | nil => simp [npSetRange]
  | cons x xs ih =>
    cases n with
    | zero => by_cases h : lo ≤ k ∧ k < hi <;> simp [npSetRange, h]
    | succ m =>
      have h : k + (m + 1) = (k + 1) + m := by omega
      simpa [npSetRange, h] using ih (k + 1) m

theorem npSetRange_of_ge {α : Type} (v : α) (lo hi k : ℕ) (l : List α)
    (h : hi ≤ lo) : npSetRange v lo hi k l = l := by
  induction l generalizing k with
  | nil => rfl
  | cons x xs ih =>
    have : ¬(lo ≤ k ∧ k < hi) := by omega
    simp [npSetRange, this, ih]

@[simp] theorem append_max_size {α : Type} (b : NumPyRingBuffer α) (v : α) :
    (b.append v).max_size = b.max_size := rfl

@[simp] theorem append_index {α : Type} (b : NumPyRingBuffer α) (v : α) :
    (b.append v).index = b.index + 1 := rfl

theorem append_npa {α : Type} (b : NumPyRingBuffer α) (v : α) :
    (b.append v).npa = (b.npa.set (b.index % b.max_size) v).set
      (b.index % b.max_size + b.max_size) v := rfl

@[simp] theorem append_npa_length {α : Type} (b : NumPyRingBuffer α) (v : α) :
    (b.append v).npa.length = b.npa.length := by
  simp [append_npa]

theorem appendAll_concat {α : Type} (b : NumPyRingBuffer α) (xs : List α)
    (x : α) : appendAll b (xs ++ [x]) = (appendAll b xs).append x := by
  simp [appendAll]

@[simp] theorem appendAll_max_size {α : Type} (b : NumPyRingBuffer α)
    (xs : List α) : (appendAll b xs).max_size = b.max_size := by
  induction xs generalizing b with
  | nil => rfl
  | cons x xs ih => simpa [appendAll] using ih (b.append x)

@[simp] theorem appendAll_index {α : Type} (b : NumPyRingBuffer α)
    (xs : List α) : (appendAll b xs).index = b.index + xs.length := by
  induction xs generalizing b with
  | nil => rfl
  | cons x xs ih =>
    have := ih (b.append x)
    simp only [appendAll] at this ⊢
    simp [List.foldl_cons, this]
    omega

@[simp] theorem appendAll_npa_length {α : Type} (b : NumPyRingBuffer α)
    (xs : List α) : (appendAll b xs).npa.length = b.npa.length := by
  induction xs generalizing b with
  | nil => rfl
  | cons x xs ih =>
    have := ih (b.append x)
    simp only [appendAll] at this ⊢
    simp [List.foldl_cons, this]

@[simp] theorem construct_max_size {α : Type} (C : ℕ) (junk : ℕ → α) :
    (construct C junk).max_size = C := rfl

@[simp] theorem construct_index {α : Type} (C : ℕ) (junk : ℕ → α) :
    (construct C junk).index = 0 := rfl

@[simp] theorem construct_npa_length {α : Type} (C : ℕ) (junk : ℕ → α) :
    (construct C junk).npa.length = C * 2 := by
  simp [construct]

/-- Content of the backing array after a fresh sequence of appends: each of
the last `C` appended values is present both at its physical slot `i % C` and
at the mirror slot `i % C + C`. -/
theorem appendAll_fresh_getElem? {α : Type} (C : ℕ) (hC : 0 < C)
    (junk : ℕ → α) (xs : List α) (i : ℕ) (h1 : xs.length - C ≤ i)
    (h2 : i < xs.length) :
    (appendAll (construct C junk) xs).npa[i % C]? = xs[i]? ∧
    (appendAll (construct C junk) xs).npa[i % C + C]? = xs[i]? := by
  induction xs using List.reverseRecOn with
  | nil => simp at h2
  | append_singleton ys x ih =>
    rw [appendAll_concat]
    have hxlen : (ys ++ [x]).length = ys.length + 1 := by simp
    have hbmax : (appendAll (construct C junk) ys).max_size = C := by simp
    have hbidx : (appendAll (construct C junk) ys).index = ys.length := by simp
    have hblen : (appendAll (construct C junk) ys).npa.length = C * 2 := by simp
    have hp : ys.length % C < C := Nat.mod_lt _ hC
    rw [append_npa, hbmax, hbidx]
    by_cases hi : i = ys.length
    · subst hi
      have hne : ys.length % C + C ≠ ys.length % C := by omega
      refine ⟨?_, ?_⟩
      · rw [List.getElem?_set_ne hne, List.getElem?_set_self (by omega),
          List.getElem?_concat_length]
      · rw [List.getElem?_set_self (by simp [hblen]; omega),
          List.getElem?_concat_length]
    · have hilt : i < ys.length := by omega
      have h1' : ys.length - C ≤ i := by omega
      have hmod : i % C ≠ ys.length % C := by
        intro he
        have hdvd : C ∣ ys.length - i :=
          (Nat.modEq_iff_dvd' (le_of_lt hilt)).mp he
        have : C ≤ ys.length - i := Nat.le_of_dvd (by omega) hdvd
        omega
      have hiC : i % C < C := Nat.mod_lt _ hC
      obtain ⟨ih1, ih2⟩ := ih h1' hilt
      have hrhs : (ys ++ [x])[i]? = ys[i]? := List.getElem?_append_left hilt
      refine ⟨?_, ?_⟩
      · rw [List.getElem?_set_ne (by omega), List.getElem?_set_ne (by omega),
          ih1, hrhs]
      · rw [List.getElem?_set_ne (by omega), List.getElem?_set_ne (by omega),
          ih2, hrhs]

/-- The `getElements` window always has length exactly `max_size` on a
well-formed buffer with positive capacity. -/
theorem getElements_length {α : Type} (b : NumPyRingBuffer α)
    (hw : b.npa.length = 2 * b.max_size) (hC : 0 < b.max_size) :
    (getElements b).length = b.max_size := by
  have hmod : b.index % b.max_size < b.max_size := Nat.mod_lt _ hC
  simp only [getElements, List.length_take, List.length_drop, hw]
  omega

/-- On a full buffer reached by a fresh append sequence, the `getElements`
window is exactly the last `C` appended values, oldest first. -/
theorem getElements_appendAll_full {α : Type} (C : ℕ) (hC : 0 < C)
    (junk : ℕ → α) (xs : List α) (hfull : C ≤ xs.length) :
    getElements (appendAll (construct C junk) xs) = xs.drop (xs.length - C) := by
  have hbmax : (appendAll (construct C junk) xs).max_size = C := by simp
  have hbidx : (appendAll (construct C junk) xs).index = xs.length := by simp
  have hblen : (appendAll (construct C junk) xs).npa.length = C * 2 := by simp
  have hmodlt : xs.length % C < C := Nat.mod_lt _ hC
  apply List.ext_getElem?
  intro k
  simp only [getElements]
  rw [hbmax, hbidx]
  by_cases hk : k < C
  · rw [List.getElem?_take_of_lt hk, getElem?_drop_add,
      getElem?_drop_add xs _ k]
    have heq1 : (xs.length - C + k) % C = (xs.length + k) % C := by
      conv_rhs => rw [show xs.length + k = xs.length - C + k + C by omega]
      rw [Nat.add_mod_right]
    have heq2 : (xs.length % C + k) % C = (xs.length + k) % C :=
      (Nat.mod_modEq xs.length C).add_right k
    by_cases hq : xs.length % C + k < C
    · have hqmod : (xs.length % C + k) % C = xs.length % C + k :=
        Nat.mod_eq_of_lt hq
      have hi : (xs.length - C + k) % C = xs.length % C + k := by
        rw [heq1, ← heq2, hqmod]
      have hmain := (appendAll_fresh_getElem? C hC junk xs (xs.length - C + k)
        (by omega) (by omega)).1
      rw [hi] at hmain
      exact hmain
    · have hqmod : (xs.length % C + k) % C = xs.length % C + k - C := by
        rw [Nat.mod_eq_sub_mod (by omega), Nat.mod_eq_of_lt (by omega)]
      have hi : (xs.length - C + k) % C + C = xs.length % C + k := by
        rw [heq1, ← heq2, hqmod]; omega
      have hmain := (appendAll_fresh_getElem? C hC junk xs (xs.length - C + k)
        (by omega) (by omega)).2
      rw [hi] at hmain
      exact hmain
  · have h1 : (((appendAll (construct C junk) xs).npa.drop
        (xs.length % C)).take C).length ≤ k := by
      simp only [List.length_take, List.length_drop, hblen]
      omega
    have h2 : (xs.drop (xs.length - C)).length ≤ k := by
      simp only [List.length_drop]
      omega
    rw [List.getElem?_eq_none h1, List.getElem?_eq_none h2]

/-- The array that `__getattr__` forwards a reduction to, after a fresh append
sequence, is always the last `min(N, C)` appended values in order — i.e.
`xs.drop (xs.length - C)` (which is all of `xs` when not yet full). -/
theorem getattrWindow_appendAll {α : Type} (C : ℕ) (hC : 0 < C)
    (junk : ℕ → α) (xs : List α) :
    getattrWindow (appendAll (construct C junk) xs) =
      xs.drop (xs.length - C) := by
  by_cases hfull : C ≤ xs.length
  · simp only [getattrWindow]
    rw [if_neg (by simp; omega)]
    exact getElements_appendAll_full C hC junk xs hfull
  · have hlt : xs.length < C := by omega
    simp only [getattrWindow]
    rw [if_pos (by simp; omega), show xs.length - C = 0 by omega,
      List.drop_zero]
    have hbidx : (appendAll (construct C junk) xs).index = xs.length := by simp
    have hblen : (appendAll (construct C junk) xs).npa.length = C * 2 := by simp
    rw [hbidx]
    apply List.ext_getElem?
    intro k
    by_cases hk : k < xs.length
    · rw [List.getElem?_take_of_lt hk]
      have hmain := (appendAll_fresh_getElem? C hC junk xs k
        (by omega) hk).1
      rwa [Nat.mod_eq_of_lt (by omega)] at hmain
    · have h1 : ((appendAll (construct C junk) xs).npa.take
          xs.length).length ≤ k := by
        simp only [List.length_take, hblen]
        omega
      rw [List.getElem?_eq_none h1, List.getElem?_eq_none (by omega)]

@[simp] theorem setitemInt_max_size {α : Type} (b : NumPyRingBuffer α)
    (idx : ℤ) (v : α) : (b.setitemInt idx v).max_size = b.max_size := rfl

@[simp] theorem setitemInt_index {α : Type} (b : NumPyRingBuffer α)
    (idx : ℤ) (v : α) : (b.setitemInt idx v).index = b.index := rfl

theorem setitemInt_npa {α : Type} (b : NumPyRingBuffer α) (idx : ℤ) (v : α) :
    (b.setitemInt idx v).npa =
      (b.npa.set (((idx + (b.index : ℤ)) % (b.max_size : ℤ)).toNat) v).set
        ((((idx + (b.index : ℤ)) % (b.max_size : ℤ)).toNat) + b.max_size) v := rfl

@[simp] theorem setitemInt_npa_length {α : Type} (b : NumPyRingBuffer α)
    (idx : ℤ) (v : α) : (b.setitemInt idx v).npa.length = b.npa.length := by
  simp [setitemInt_npa]

@[simp] theorem setitemSlice_max_size {α : Type} (b : NumPyRingBuffer α)
    (ostart ostop : Option ℤ) (v : α) :
    (b.setitemSlice ostart ostop v).max_size = b.max_size := rfl

@[simp] theorem setitemSlice_index {α : Type} (b : NumPyRingBuffer α)
    (ostart ostop : Option ℤ) (v : α) :
    (b.setitemSlice ostart ostop v).index = b.index := rfl

theorem setitemSlice_npa {α : Type} (b : NumPyRingBuffer α)
    (ostart ostop : Option ℤ) (v : α) :
    (b.setitemSlice ostart ostop v).npa =
      npSetRange v
        (((ostart.getD 0 + (b.index : ℤ)) % (b.max_size : ℤ)).toNat + b.max_size)
        (((ostop.getD 0 + (b.index : ℤ)) % (b.max_size : ℤ)).toNat + b.max_size) 0
        (npSetRange v
          (((ostart.getD 0 + (b.index : ℤ)) % (b.max_size : ℤ)).toNat)
          (((ostop.getD 0 + (b.index : ℤ)) % (b.max_size : ℤ)).toNat) 0
          b.npa) := rfl

@[simp] theorem setitemSlice_npa_length {α : Type} (b : NumPyRingBuffer α)
    (ostart ostop : Option ℤ) (v : α) :
    (b.setitemSlice ostart ostop v).npa.length = b.npa.length := by
  simp [setitemSlice_npa, npSetRange_length]

theorem clear_max_size {α : Type} (b : NumPyRingBuffer α) :
    b.clear.max_size = b.max_size := rfl

theorem clear_npa {α : Type} (b : NumPyRingBuffer α) : b.clear.npa = b.npa := rfl

theorem clear_index {α : Type} (b : NumPyRingBuffer α) : b.clear.index = 0 := rfl

/-- The cursor-relative physical slot of an integer-selector write is a valid
slot below the capacity. -/
theorem setitemInt_slot_lt {α : Type} (b : NumPyRingBuffer α) (idx : ℤ)
    (hC : 0 < b.max_size) :
    ((idx + (b.index : ℤ)) % (b.max_size : ℤ)).toNat < b.max_size := by
  have h0 : (0 : ℤ) < (b.max_size : ℤ) := by exact_mod_cast hC
  have h1 : 0 ≤ (idx + (b.index : ℤ)) % (b.max_size : ℤ) :=
    Int.emod_nonneg _ (by omega)
  have h2 : (idx + (b.index : ℤ)) % (b.max_size : ℤ) < (b.max_size : ℤ) :=
    Int.emod_lt_of_pos _ h0
  omega

theorem DupInv_append {α : Type} (b : NumPyRingBuffer α) (v : α)
    (hw : b.npa.length = 2 * b.max_size) (hinv : DupInv b) :
    DupInv (b.append v) := by
  intro s hs
  rw [append_max_size] at hs
  have hC : 0 < b.max_size := by omega
  have hp : b.index % b.max_size < b.max_size := Nat.mod_lt _ hC
  simp only [append_max_size, append_npa]
  by_cases hsp : s = b.index % b.max_size
  · subst hsp
    rw [List.getElem?_set_ne (by omega), List.getElem?_set_self (by omega),
      List.getElem?_set_self (by simp; omega)]
  · rw [List.getElem?_set_ne (by omega), List.getElem?_set_ne (by omega),
      List.getElem?_set_ne (by omega), List.getElem?_set_ne (by omega)]
    exact hinv s hs

theorem DupInv_setitemInt {α : Type} (b : NumPyRingBuffer α) (idx : ℤ) (v : α)
    (hw : b.npa.length = 2 * b.max_size) (hinv : DupInv b) :
    DupInv (b.setitemInt idx v) := by
  intro s hs
  rw [setitemInt_max_size] at hs
  have hC : 0 < b.max_size := by omega
  have hp := setitemInt_slot_lt b idx hC
  simp only [setitemInt_max_size, setitemInt_npa]
  by_cases hsp : s = ((idx + (b.index : ℤ)) % (b.max_size : ℤ)).toNat
  · subst hsp
    rw [List.getElem?_set_ne (by omega), List.getElem?_set_self (by omega),
      List.getElem?_set_self (by simp; omega)]
  · rw [List.getElem?_set_ne (by omega), List.getElem?_set_ne (by omega),
      List.getElem?_set_ne (by omega), List.getElem?_set_ne (by omega)]
    exact hinv s hs

theorem DupInv_setitemSlice {α : Type} (b : NumPyRingBuffer α)
    (ostart ostop : Option ℤ) (v : α) (hinv : DupInv b) :
    DupInv (b.setitemSlice ostart ostop v) := by
  intro s hs
  rw [setitemSlice_max_size] at hs
  have hC : 0 < b.max_size := by omega
  have ha := setitemInt_slot_lt b (ostart.getD 0) hC
  have hc := setitemInt_slot_lt b (ostop.getD 0) hC
  simp only [setitemSlice_max_size, setitemSlice_npa]
  rw [npSetRange_getElem?, npSetRange_getElem?, npSetRange_getElem?,
    npSetRange_getElem?]
  simp only [Nat.zero_add]
  set a := ((ostart.getD 0 + (b.index : ℤ)) % (b.max_size : ℤ)).toNat with hadef
  set c := ((ostop.getD 0 + (b.index : ℤ)) % (b.max_size : ℤ)).toNat with hcdef
  have h1 : ¬(a + b.max_size ≤ s ∧ s < c + b.max_size) := by omega
  have h2 : ¬(a ≤ s + b.max_size ∧ s + b.max_size < c) := by omega
  rw [if_neg h1, if_neg h2]
  by_cases hcond : a ≤ s ∧ s < c
  · rw [if_pos hcond,
      if_pos (show a + b.max_size ≤ s + b.max_size ∧
        s + b.max_size < c + b.max_size by omega), hinv s hs]
  · rw [if_neg hcond,
      if_neg (show ¬(a + b.max_size ≤ s + b.max_size ∧
        s + b.max_size < c + b.max_size) by omega), hinv s hs]

theorem runOps_cons {α : Type} (b : NumPyRingBuffer α) (op : Op α)
    (ops : List (Op α)) : runOps b (op :: ops) = runOps (applyOp b op) ops := rfl

theorem applyOp_npa_length {α : Type} (b : NumPyRingBuffer α) (op : Op α) :
    (applyOp b op).npa.length = b.npa.length := by
  cases op <;> simp [applyOp]

theorem applyOp_max_size {α : Type} (b : NumPyRingBuffer α) (op : Op α) :
    (applyOp b op).max_size = b.max_size := by
  cases op <;> simp [applyOp]

theorem DupInv_applyOp {α : Type} (b : NumPyRingBuffer α) (op : Op α)
    (hw : b.npa.length = 2 * b.max_size) (hinv : DupInv b) :
    DupInv (applyOp b op) := by
  cases op with
  | append v => exact DupInv_append b v hw hinv
  | writeInt i v => exact DupInv_setitemInt b i v hw hinv
  | writeSlice s t v => exact DupInv_setitemSlice b s t v hinv

theorem take_one_eq {α : Type} (l : List α) (v : α) (h : l[0]? = some v) :
    l.take 1 = [v] := by
  apply List.ext_getElem?
  intro k
  cases k with
  | zero => rw [List.getElem?_take_of_lt (by omega)]; simp [h]
  | succ m =>
    rw [List.getElem?_eq_none (by simp [List.length_take]),
      List.getElem?_eq_none (by simp)]

end NumPyRingBuffer

open NumPyRingBuffer

/-- Claim C2: for every capacity `C > 0` and every sequence of `N` appended
values (no intervening clear), `len(buffer)` equals `min(N, C)` after each
append; every prefix of an append sequence is itself such a sequence, so the
universally quantified statement covers the value after each append. -/
theorem length_eq_min_appends {α : Type} (C : ℕ) (hC : 0 < C) (junk : ℕ → α)
    (xs : List α) :
    (appendAll (construct C junk) xs).length = min xs.length C := by
  simp only [NumPyRingBuffer.length, isFull, appendAll_index,
    appendAll_max_size, construct_index, construct_max_size, Nat.zero_add,
    ge_iff_le, decide_eq_true_eq]
  split <;> omega

/-- Witness for C2 at capacity 10 with the 25 appends of the spec's concrete
scenario. -/
theorem length_eq_min_appends_witness :
    (appendAll (construct 10 (fun _ => (0 : ℕ))) (List.range 25)).length =
      min (List.range 25).length 10 :=
  length_eq_min_appends 10 (by decide) (fun _ => 0) (List.range 25)

/-- Claim C3: a reduction invoked on the buffer is forwarded by `__getattr__`
to exactly the current logical window — all values appended so far when not
full, the last `C` appended values when full (both are `xs.drop (N - C)`) —
so any function of that window, in particular `min`, `max`, `mean`, `std` and
`sum`, equals the same function applied to an independently built array
holding the last `min(N, C)` appended values. -/
theorem reduction_over_logical_window {α β : Type} (C : ℕ) (hC : 0 < C)
    (junk : ℕ → α) (xs : List α) (f : List α → β) :
    f (getattrWindow (appendAll (construct C junk) xs)) =
      f (xs.drop (xs.length - C)) :=
  congrArg f (getattrWindow_appendAll C hC junk xs)

/-- Witness for C3: the sum reduction over a full buffer of capacity 10 after
appending 0..24 equals the sum of the independently built last-10 array. -/
theorem reduction_over_logical_window_witness :
    List.sum (getattrWindow (appendAll (construct 10 (fun _ => (0 : ℕ)))
        (List.range 25))) =
      List.sum ((List.range 25).drop ((List.range 25).length - 10)) :=
  reduction_over_logical_window 10 (by decide) (fun _ => 0) (List.range 25)
    List.sum

/-- Claim C1 (code evidence): with capacity 10 and uninitialized backing
contents 99, after appending `[1,2,3,4,5]` (not yet full) the `getElements()`
view trimmed to `length()` is five stale slots `[99,99,99,99,99]`, not the
appended values — the appended values occupy the *last* `length()` entries of
the view instead.  Once the buffer is full the trimmed view is correct: after
appending 0..24 it is `[15,...,24]` as the spec's concrete scenario states. -/
theorem trimmed_elements_eval :
    (getElements (appendAll (construct 10 (fun _ => (99 : ℕ)))
        [1, 2, 3, 4, 5])).take
      (appendAll (construct 10 (fun _ => (99 : ℕ))) [1, 2, 3, 4, 5]).length
      = [99, 99, 99, 99, 99] ∧
    ([99, 99, 99, 99, 99] : List ℕ) ≠ [1, 2, 3, 4, 5] ∧
    (getElements (appendAll (construct 10 (fun _ => (99 : ℕ)))
        (List.range 25))).take
      (appendAll (construct 10 (fun _ => (99 : ℕ))) (List.range 25)).length
      = [15, 16, 17, 18, 19, 20, 21, 22, 23, 24] :=
  ⟨by decide, by decide, by decide⟩

/-- Claim C4: the duplication invariant.  Every mutating operation (append,
integer-selector write, slice-selector write) writes each value both to its
physical slot and to the slot offset by the capacity, so on a well-formed
buffer the mirror equality `backing[s] = backing[s + C]` for every slot
`s < C` is preserved by any sequence of appends and writes. -/
theorem dup_invariant_ops {α : Type} (b : NumPyRingBuffer α)
    (ops : List (Op α)) (hw : b.npa.length = 2 * b.max_size)
    (hinv : DupInv b) : DupInv (runOps b ops) := by
  induction ops generalizing b with
  | nil => exact hinv
  | cons op rest ih =>
    rw [runOps_cons]
    exact ih (applyOp b op)
      (by rw [applyOp_npa_length, applyOp_max_size]; exact hw)
      (DupInv_applyOp b op hw hinv)

/-- Witness for C4: a concrete mixed sequence of appends and writes on a
capacity-3 buffer preserves the duplication invariant. -/
theorem dup_invariant_ops_witness :
    DupInv (runOps (construct 3 (fun _ => (0 : ℕ)))
      [.append 5, .writeInt 1 7, .writeSlice (some 0) (some 2) 9, .append 8]) :=
  dup_invariant_ops _ _ (by decide) (by unfold DupInv; decide)

/-- Claim C6 counterexample: constructing with the non-positive capacity 0
does not fail at all — the Python constructor performs no validation, and
`numpy.empty(0)` succeeds — so no `ConfigurationError` is raised. -/
theorem construct_zero_succeeds :
    constructZ (0 : ℤ) (fun _ => (0 : ℕ)) =
      .ok { max_size := 0, npa := [], index := 0 } := rfl

/-- Claim C6 amended: construction never raises a `ConfigurationError`; with
any capacity `z ≥ 0` (including 0) it succeeds, allocating a backing store of
length exactly `2 × z` and setting the cursor to 0, while a negative capacity
fails with the backing allocator's `ValueError`. -/
theorem constructZ_cases {α : Type} (z : ℤ) (junk : ℕ → α) :
    (0 ≤ z → ∃ b : NumPyRingBuffer α, constructZ z junk = .ok b ∧
      b.npa.length = (2 * z).toNat ∧ b.index = 0 ∧ b.max_size = z.toNat) ∧
    (z < 0 → constructZ z junk =
      .error "ValueError: negative dimensions are not allowed") := by
  constructor
  · intro hz
    refine ⟨⟨z.toNat, List.ofFn fun i : Fin (z * 2).toNat => junk i.val, 0⟩,
      ?_, ?_, rfl, rfl⟩
    · unfold constructZ npempty
      rw [if_neg (by omega)]
      rfl
    · simp only [List.length_ofFn]
      omega
  · intro hz
    unfold constructZ npempty
    rw [if_pos (by omega)]
    rfl

/-- Witness for the amended C6: capacity 3 succeeds with a backing store of
length 6 and cursor 0; capacity -1 fails with the allocator's error. -/
theorem constructZ_cases_witness :
    (∃ b : NumPyRingBuffer ℕ, constructZ 3 (fun _ => 0) = .ok b ∧
      b.npa.length = ((2 : ℤ) * 3).toNat ∧ b.index = 0 ∧
      b.max_size = (3 : ℤ).toNat) ∧
    constructZ (-1 : ℤ) (fun _ => (0 : ℕ)) =
      .error "ValueError: negative dimensions are not allowed" :=
  ⟨(constructZ_cases 3 (fun _ => 0)).1 (by decide),
   (constructZ_cases (-1) (fun _ => 0)).2 (by decide)⟩

/-- Claim C5 counterexample: reading index `-1` from a full capacity-2 buffer
holding `[5, 7]` succeeds and returns `7`, the newest element — the negative
index is reinterpreted as counting from the end of the `getElements()` view
instead of raising `IndexError`. -/
theorem negative_read_succeeds :
    getitemInt (appendAll (construct 2 (fun _ => (0 : ℕ))) [5, 7]) (-1) =
      .ok 7 := rfl

/-- Claim C5 amended: a negative read index `i` with `-C ≤ i < 0` succeeds,
returning element `C + i` of the capacity-length `getElements()` view
(from-the-end semantics); only an index below `-C` fails with `IndexError`. -/
theorem negative_index_semantics {α : Type} (b : NumPyRingBuffer α) (i : ℤ)
    (hw : b.npa.length = 2 * b.max_size) (hC : 0 < b.max_size)
    (hneg : i < 0) :
    (-(b.max_size : ℤ) ≤ i →
      ∃ v, b.getitemInt i = .ok v ∧
        (getElements b)[(i + (b.max_size : ℤ)).toNat]? = some v) ∧
    (i < -(b.max_size : ℤ) → b.getitemInt i = .error "IndexError") := by
  have hlen : (getElements b).length = b.max_size := getElements_length b hw hC
  have hif : (if i < 0 then i + ((getElements b).length : ℤ) else i) =
      i + ((getElements b).length : ℤ) := if_pos hneg
  constructor
  · intro hge
    have h0 : 0 ≤ i + ((getElements b).length : ℤ) := by rw [hlen]; omega
    have h1 : (i + ((getElements b).length : ℤ)).toNat <
        (getElements b).length := by rw [hlen]; omega
    simp only [getitemInt, npGetInt, hif]
    rw [dif_pos ⟨h0, h1⟩]
    refine ⟨_, rfl, ?_⟩
    have hidx : (i + (b.max_size : ℤ)).toNat =
        (i + ((getElements b).length : ℤ)).toNat := by rw [hlen]
    rw [hidx, List.getElem?_eq_getElem h1]
    simp
  · intro hlt
    simp only [getitemInt, npGetInt, hif]
    rw [dif_neg (by rw [hlen]; omega)]

/-- Witness for the amended C5: on the full capacity-2 buffer holding
`[5, 7]`, reading index -1 returns the last view element, and reading index
-5 raises `IndexError`. -/
theorem negative_index_semantics_witness :
    (∃ v, (appendAll (construct 2 (fun _ => (0 : ℕ))) [5, 7]).getitemInt (-1)
        = .ok v ∧
      (getElements (appendAll (construct 2 (fun _ => (0 : ℕ)))
        [5, 7]))[((-1 : ℤ) +
          ((appendAll (construct 2 (fun _ => (0 : ℕ))) [5, 7]).max_size : ℤ)).toNat]?
        = some v) ∧
    (appendAll (construct 2 (fun _ => (0 : ℕ))) [5, 7]).getitemInt (-5) =
      .error "IndexError" :=
  ⟨(negative_index_semantics _ (-1) (by decide) (by decide) (by decide)).1
      (by decide),
   (negative_index_semantics _ (-5) (by decide) (by decide) (by decide)).2
      (by decide)⟩

/-- Claim C7: `isFull()` is true exactly when the write cursor has reached
the capacity; once `N ≥ C` values have been appended it is true, it stays
true under every further append (and under writes, which do not move the
cursor), and `clear()` makes it false. -/
theorem isFull_semantics {α : Type} (b : NumPyRingBuffer α) (v w : α) (i : ℤ)
    (s t : Option ℤ) (C : ℕ) (junk : ℕ → α) (xs : List α) :
    (b.isFull = true ↔ b.max_size ≤ b.index) ∧
    (C ≤ xs.length → (appendAll (construct C junk) xs).isFull = true) ∧
    (b.isFull = true → (b.append v).isFull = true) ∧
    (b.isFull = true → (b.setitemInt i w).isFull = true) ∧
    (b.isFull = true → (b.setitemSlice s t w).isFull = true) ∧
    (0 < b.max_size → b.clear.isFull = false) := by
  refine ⟨by simp [isFull], ?_, ?_, ?_, ?_, ?_⟩
  · intro h
    simp only [isFull, appendAll_index, appendAll_max_size, construct_index,
      construct_max_size, Nat.zero_add, ge_iff_le, decide_eq_true_eq]
    omega
  · simp only [isFull, append_index, append_max_size, ge_iff_le,
      decide_eq_true_eq]
    omega
  · simp [isFull]
  · simp [isFull]
  · intro h
    simp only [isFull, clear_index, clear_max_size, ge_iff_le,
      decide_eq_false_iff_not, decide_eq_true_eq]
    omega

/-- Witness for C7 on a capacity-2 buffer after three appends: it is full,
stays full after a further append, and clear() makes it not full. -/
theorem isFull_semantics_witness :
    (appendAll (construct 2 (fun _ => (0 : ℕ))) [1, 2, 3]).isFull = true ∧
    ((appendAll (construct 2 (fun _ => (0 : ℕ))) [1, 2, 3]).append 9).isFull
      = true ∧
    (appendAll (construct 2 (fun _ => (0 : ℕ))) [1, 2, 3]).clear.isFull
      = false :=
  ⟨(isFull_semantics (appendAll (construct 2 (fun _ => (0 : ℕ))) [1, 2, 3])
      9 9 0 none none 2 (fun _ => 0) [1, 2, 3]).2.1 (by decide),
   (isFull_semantics (appendAll (construct 2 (fun _ => (0 : ℕ))) [1, 2, 3])
      9 9 0 none none 2 (fun _ => 0) [1, 2, 3]).2.2.1 (by decide),
   (isFull_semantics (appendAll (construct 2 (fun _ => (0 : ℕ))) [1, 2, 3])
      9 9 0 none none 2 (fun _ => 0) [1, 2, 3]).2.2.2.2.2 (by decide)⟩

/-- Claim C8: `clear()` resets the cursor to 0 and changes nothing else — the
backing store is untouched, capacity is unchanged, `length()` becomes 0, and
the next append yields `length() = 1` with that single value as the entire
visible window. -/
theorem clear_semantics {α : Type} (b : NumPyRingBuffer α) (v : α)
    (hw : b.npa.length = 2 * b.max_size) (hC : 0 < b.max_size) :
    b.clear.npa = b.npa ∧ b.clear.index = 0 ∧
    b.clear.max_size = b.max_size ∧ b.clear.length = 0 ∧
    (b.clear.append v).length = 1 ∧
    getattrWindow (b.clear.append v) = [v] := by
  refine ⟨rfl, rfl, rfl, ?_, ?_, ?_⟩
  · simp only [NumPyRingBuffer.length, isFull, clear_index, clear_max_size,
      ge_iff_le, decide_eq_true_eq]
    rw [if_neg (by omega)]
  · simp only [NumPyRingBuffer.length, isFull, append_index, append_max_size,
      clear_index, clear_max_size, Nat.zero_add, ge_iff_le,
      decide_eq_true_eq]
    split <;> omega
  · have hnpa : (b.clear.append v).npa[0]? = some v := by
      rw [append_npa]
      simp only [clear_npa, clear_index, clear_max_size, Nat.zero_mod]
      rw [List.getElem?_set_ne (by omega), List.getElem?_set_self (by omega)]
    have htake : (b.clear.append v).npa.take 1 = [v] := take_one_eq _ v hnpa
    simp only [getattrWindow, append_index, append_max_size, clear_index,
      clear_max_size, Nat.zero_add]
    by_cases h1 : 1 < b.max_size
    · rw [if_pos h1]
      exact htake
    · have hm1 : b.max_size = 1 := by omega
      rw [if_neg (by omega), hm1]
      simpa using htake

/-- Witness for C8 on a full capacity-2 buffer: clear keeps the backing
array, zeroes the cursor and the length, and the next append makes the
window exactly that one value. -/
theorem clear_semantics_witness :
    (appendAll (construct 2 (fun _ => (0 : ℕ))) [5, 7]).clear.npa =
      (appendAll (construct 2 (fun _ => (0 : ℕ))) [5, 7]).npa ∧
    (appendAll (construct 2 (fun _ => (0 : ℕ))) [5, 7]).clear.index = 0 ∧
    (appendAll (construct 2 (fun _ => (0 : ℕ))) [5, 7]).clear.max_size =
      (appendAll (construct 2 (fun _ => (0 : ℕ))) [5, 7]).max_size ∧
    (appendAll (construct 2 (fun _ => (0 : ℕ))) [5, 7]).clear.length = 0 ∧
    ((appendAll (construct 2 (fun _ => (0 : ℕ))) [5, 7]).clear.append 9).length
      = 1 ∧
    getattrWindow
      ((appendAll (construct 2 (fun _ => (0 : ℕ))) [5, 7]).clear.append 9)
      = [9] :=
  clear_semantics _ 9 (by decide) (by decide)

/-- Claim C9: a non-negative range write whose cursor-relative physical range
wraps the capacity boundary — `(start + cursor) % C > (stop + cursor) % C` —
completes without error yet changes no backing-store slot at all: both
computed physical slices are empty and the requested value is silently
discarded. -/
theorem wrapped_slice_write_noop {α : Type} (b : NumPyRingBuffer α)
    (istart istop : ℤ) (v : α) (h0 : 0 ≤ istart) (h1 : 0 ≤ istop)
    (hwrap : ((istop + (b.index : ℤ)) % (b.max_size : ℤ)).toNat <
      ((istart + (b.index : ℤ)) % (b.max_size : ℤ)).toNat) :
    b.setitemSlice (some istart) (some istop) v = b := by
  have hnpa : (b.setitemSlice (some istart) (some istop) v).npa = b.npa := by
    rw [setitemSlice_npa]
    simp only [Option.getD_some]
    rw [npSetRange_of_ge _ _ _ _ _ (by omega),
      npSetRange_of_ge _ _ _ _ _ (by omega)]
  have h2 : b.setitemSlice (some istart) (some istop) v =
      ⟨b.max_size, (b.setitemSlice (some istart) (some istop) v).npa,
        b.index⟩ := rfl
  rw [h2, hnpa]

/-- Witness for C9: on a capacity-3 buffer with cursor 2, the range write
`[0:2] = 7` has wrapped physical bounds (start slot 2, stop slot 1) and
leaves the buffer unchanged. -/
theorem wrapped_slice_write_noop_witness :
    (appendAll (construct 3 (fun _ => (0 : ℕ))) [10, 20]).setitemSlice
      (some 0) (some 2) 7 =
      appendAll (construct 3 (fun _ => (0 : ℕ))) [10, 20] :=
  wrapped_slice_write_noop _ 0 2 7 (by decide) (by decide) (by decide)

/-- Claim C10: a `__setitem__` whose selector list contains a slice always
aborts with an `AttributeError` (the code reads `.start`/`.stop` on the list
itself), after having applied exactly the integer selectors that precede the
first slice — so such a write is never wholly performed and is not atomic. -/
theorem setitemList_slice_aborts {α : Type} (b : NumPyRingBuffer α)
    (sels : List Sel) (v : α) (h : ∃ s ∈ sels, s.isInt = false) :
    b.setitemList sels v =
      ((sels.takeWhile Sel.isInt).foldl (applyIntSel v) b, true) := by
  induction sels generalizing b with
  | nil => simp at h
  | cons s rest ih =>
    cases s with
    | int i =>
      have h' : ∃ s ∈ rest, s.isInt = false := by
        obtain ⟨s', hs', hfalse⟩ := h
        rcases List.mem_cons.mp hs' with he | hm
        · subst he; simp [Sel.isInt] at hfalse
        · exact ⟨s', hm, hfalse⟩
      rw [show b.setitemList (Sel.int i :: rest) v =
        (b.setitemInt i v).setitemList rest v from rfl]
      rw [ih (b.setitemInt i v) h']
      simp [List.takeWhile_cons, Sel.isInt, applyIntSel]
    | rng os ot =>
      rw [show b.setitemList (Sel.rng os ot :: rest) v = (b, true) from rfl]
      simp [List.takeWhile_cons, Sel.isInt]

/-- Witness for C10: a selector list with an integer before a slice aborts
with the error flag set, with only the leading integer write applied. -/
theorem setitemList_slice_aborts_witness :
    (construct 3 (fun _ => (0 : ℕ))).setitemList
      [Sel.int 0, Sel.rng none (some 2), Sel.int 1] 7 =
      (([Sel.int 0, Sel.rng none (some 2), Sel.int 1].takeWhile
        Sel.isInt).foldl (applyIntSel 7) (construct 3 (fun _ => 0)), true) :=
  setitemList_slice_aborts _ _ 7 ⟨Sel.rng none (some 2), by decide, rfl⟩
